import Mathlib

/-!
Verification of the core orchestration logic of a retrieval-augmented
question-answering pipeline: corpus synchronization, category-scoped hybrid
retrieval, query rewriting, rerank fallback, the streaming answer state
machine, batch orchestration, single-document update, and bounded
conversational memory.  Each definition is a shallow embedding of the
corresponding Python function in `rag/pipeline.py`, `rag/streaming_pipeline.py`
or `rag/async_pipeline.py`; external collaborators (vector index, LLM,
reranker, file system, hash) are abstracted as function parameters.
-/

namespace RagDemo

/-! ## Configuration constants, from `rag/config.py` -/

def RETRIEVER_TOP_K : Nat := 10
def KEYWORD_RETRIEVER_TOP_K : Nat := 5
def RERANKER_TOP_N : Nat := 3
def ENABLE_HYBRID_SEARCH : Bool := true
def ENABLE_QUERY_REWRITING : Bool := true
def QUERY_REWRITE_COUNT : Nat := 3
def REWRITE_QUERY_TOP_K : Nat := 5
def ENABLE_DOCUMENT_DEDUPLICATION : Bool := true
def ENABLE_FILE_MONITORING : Bool := true
def AUTO_DELETE_MISSING_FILES : Bool := true
def DOCUMENT_ID_PREFIX : String := "doc_"

/-! ## Documents

A retrieved chunk as seen by the retrieval/rerank/answer stages: its text
content and the `category` / `source` metadata fields used by the code. -/

structure Doc where
  content : String
  category : String
  source : String
deriving DecidableEq

/-! ## Query rewriting (`RagPipeline._rewrite_query`,
`AsyncRagPipeline._rewrite_query_async`)

The generation service call is abstracted as an `Except String String`
outcome: `.ok content` is the text returned by the LLM, `.error e` is a
raised exception.  The parsing of the LLM output follows the Python
line-by-line cleanup. -/

/-- Python `line.split(".", 1)[-1]`: everything after the first dot,
or the whole string when it has no dot. -/
def afterFirstDot (s : String) : String :=
  match s.splitOn "." with
  | [] => s
  | [_] => s
  | _ :: rest => String.intercalate "." rest

/-- Characters removed by Python `line.lstrip("- •")`. -/
def isBulletChar (c : Char) : Bool :=
  c = '-' || c = ' ' || c = '•'

/-- Python: `line[0].isdigit() or line.startswith("-") or line.startswith("•")`,
on a non-empty line. -/
def startsWithNumbering (line : String) : Bool :=
  match line.data with
  | [] => false
  | c :: _ => c.isDigit || c = '-' || c = '•'

/-- One line of the LLM answer, cleaned of a possible numbering prefix. -/
def cleanLine (line : String) : String :=
  if startsWithNumbering line then
    (((afterFirstDot line).trim).dropWhile isBulletChar).trim
  else line

/-- The accumulation loop: keep a cleaned line if it is non-empty and not
already collected. -/
def collectRewrites : List String → List String → List String
  | [], acc => acc
  | l :: ls, acc =>
      let c := cleanLine l
      if c ≠ "" ∧ ¬ acc.contains c then collectRewrites ls (acc ++ [c])
      else collectRewrites ls acc

/-- Parse the LLM content into candidate rewritten queries:
strip, split on newlines, strip each line, drop empties, clean and dedup. -/
def parseRewrites (content : String) : List String :=
  let lines := ((content.trim).splitOn "\n").map String.trim
  collectRewrites (lines.filter (fun l => l ≠ "")) []

/-- `_rewrite_query` / `_rewrite_query_async`: the original query followed by
at most `QUERY_REWRITE_COUNT` parsed rewrites; on LLM failure, just the
original query. -/
def rewriteQuery (originalQuery : String) (llmResponse : Except String String) :
    List String :=
  if ENABLE_QUERY_REWRITING then
    match llmResponse with
    | .error _ => [originalQuery]
    | .ok content => originalQuery :: (parseRewrites content).take QUERY_REWRITE_COUNT
  else [originalQuery]

/-! ## Reranking gate (`ask` step 3, `ask_stream` step 2, `ask_async` step 3)

The external relevance scorer (`reranker.compress_documents`) is abstracted
as a function returning `.error` when it raises. -/

/-- The rerank stage: on scorer success take the first `RERANKER_TOP_N`
reranked documents, on scorer failure fall back to the first
`RERANKER_TOP_N` retrieved documents in pre-rerank order. -/
def rerankStage (scorer : List Doc → String → Except String (List Doc))
    (retrievedDocs : List Doc) (question : String) : List Doc :=
  if retrievedDocs.isEmpty then retrievedDocs.take RERANKER_TOP_N
  else
    match scorer retrievedDocs question with
    | .ok reranked => reranked.take RERANKER_TOP_N
    | .error _ => retrievedDocs.take RERANKER_TOP_N

/-! ## Conversational memory

`rag/memory_manager.py` is imported by the pipelines but is not part of the
provided sources, so the buffer is modelled from the specification. -/

/-- Modelled from the spec: a `ConversationTurn` of the memory buffer
(`{question, answer, ...}`); `rag/memory_manager.py` itself is missing from
the sources. -/
structure ConversationTurn where
  question : String
  answer : String
deriving DecidableEq

/-- Modelled from the spec: the character length a turn contributes to the
buffer total. -/
def turnChars (t : ConversationTurn) : Nat :=
  t.question.length + t.answer.length

/-- Modelled from the spec: total character length of the buffer. -/
def totalChars (ts : List ConversationTurn) : Nat :=
  (ts.map turnChars).sum

/-- Modelled from the spec: evict oldest turns (the buffer is newest-last)
while `totalChars > budget AND turnCount > minimumRounds`. -/
def evictOldest (budget minRounds : Nat) : List ConversationTurn → List ConversationTurn
  | [] => []
  | t :: rest =>
      if budget < totalChars (t :: rest) ∧ minRounds < (t :: rest).length then
        evictOldest budget minRounds rest
      else t :: rest

/-- Modelled from the spec: `add(turn)` appends the turn, then evicts. -/
def addTurn (budget minRounds : Nat) (buf : List ConversationTurn)
    (t : ConversationTurn) : List ConversationTurn :=
  evictOldest budget minRounds (buf ++ [t])

/-! ## Category-scoped multi-query retrieval
(`RagPipeline._build_category_retriever`,
`RagPipeline._retrieve_with_multiple_queries_and_categories`)

The external retrieval strategies (vector store + BM25) are abstracted as a
`search` function that receives the corpus the retriever was built over, the
per-query `k`, and the query.  `_build_category_retriever` is modelled by the
corpus it ends up searching: the category-filtered documents, or — when the
category list is empty or the filter selects nothing — the whole corpus. -/

/-- The corpus searched by the retriever `_build_category_retriever` returns:
empty `categories` uses the global hybrid retriever; a non-empty `categories`
filters `all_documents` by the `category` metadata; when the filter selects
no document the code falls back to the global hybrid retriever. -/
def buildCategoryRetrieverCorpus (allDocs : List Doc) (categories : List String) :
    List Doc :=
  if categories.isEmpty then allDocs
  else
    let categoryDocs := allDocs.filter (fun d => categories.contains d.category)
    if categoryDocs.isEmpty then allDocs else categoryDocs

/-- The merge loop of `_retrieve_with_multiple_queries_and_categories`:
append retrieved docs, skipping those whose content was already seen
(`ENABLE_DOCUMENT_DEDUPLICATION`). -/
def dedupAppend : List Doc → List String → List Doc → List String × List Doc
  | [], seen, acc => (seen, acc)
  | d :: ds, seen, acc =>
      if ENABLE_DOCUMENT_DEDUPLICATION then
        if seen.contains d.content then dedupAppend ds seen acc
        else dedupAppend ds (seen ++ [d.content]) (acc ++ [d])
      else dedupAppend ds seen (acc ++ [d])

/-- Per-query loop: query `i = 0` (the original question) uses
`RETRIEVER_TOP_K`, rewritten variants use `REWRITE_QUERY_TOP_K`. -/
def retrieveMultiAux (search : List Doc → Nat → String → List Doc)
    (allDocs : List Doc) (categories : List String) :
    List String → Nat → List String → List Doc → List Doc
  | [], _, _, acc => acc
  | q :: qs, i, seen, acc =>
      let corpus := buildCategoryRetrieverCorpus allDocs categories
      let k := if i = 0 then RETRIEVER_TOP_K else REWRITE_QUERY_TOP_K
      let r := dedupAppend (search corpus k q) seen acc
      retrieveMultiAux search allDocs categories qs (i + 1) r.1 r.2

/-- `_retrieve_with_multiple_queries_and_categories(queries, categories)`. -/
def retrieveWithMultipleQueriesAndCategories
    (search : List Doc → Nat → String → List Doc) (allDocs : List Doc)
    (queries : List String) (categories : List String) : List Doc :=
  retrieveMultiAux search allDocs categories queries 0 [] []

/-! ## Chunk identifiers

`md5` abstracts `hashlib.md5(...).hexdigest()`; an md5 hex digest always has
32 characters. -/

/-- Chunk id assigned on the new-file insertion path of
`_sync_legacy_data_directory` (step 8):
`DOCUMENT_ID_PREFIX + md5(f"\x7bsource_path\x7d_\x7bchunk.page_content\x7d")`. -/
def newFileChunkId (md5 : String → String) (sourcePath content : String) : String :=
  DOCUMENT_ID_PREFIX ++ md5 (sourcePath ++ "_" ++ content)

/-- Chunk id assigned on the modified-file re-insertion path
(`update_document`, `update_document_async`, `_update_enterprise_document`):
`DOCUMENT_ID_PREFIX + md5(file_path) + "_" + i`. -/
def updateChunkId (md5 : String → String) (filePath : String) (i : Nat) : String :=
  DOCUMENT_ID_PREFIX ++ md5 filePath ++ "_" ++ toString i

/-- The id function as the spec states it:
`id(sourcePath, ordinal) = hash(sourcePath) + "_" + ordinal`, where `hash`
is the prefixed md5 digest used by the code. -/
def specChunkId (md5 : String → String) (sourcePath : String) (ordinal : Nat) : String :=
  DOCUMENT_ID_PREFIX ++ md5 sourcePath ++ "_" ++ toString ordinal

/-! ## Corpus synchronization (`_sync_legacy_data_directory` and helpers)

The vector index is modelled as the list of stored chunk entries with the
metadata the sync logic reads (`source`, `file_hash`); `split` abstracts
`RecursiveCharacterTextSplitter.split_documents` applied to one file's
content. -/

structure DbEntry where
  chunkId : String
  source : String
  fileHash : String
deriving DecidableEq

structure FileRec where
  path : String
  content : String
deriving DecidableEq

/-- `_get_processed_sources`: the set of distinct `source` metadata values. -/
def dbSources (db : List DbEntry) : List String :=
  (db.map (fun e => e.source)).dedup

/-- `_get_file_metadata_from_db`: metadata of the first stored chunk whose
`source` equals the path. -/
def findFileMetadata (db : List DbEntry) (path : String) : Option DbEntry :=
  db.find? (fun e => e.source == path)

/-- `_is_file_modified`: no stored record means modified (treated as new),
otherwise compare the md5 of the current content with the stored
`file_hash`. -/
def isFileModified (md5 : String → String) (db : List DbEntry) (f : FileRec) : Bool :=
  match findFileMetadata db f.path with
  | none => true
  | some e => md5 f.content != e.fileHash

/-- `delete_documents_by_source`: returns `(success, new index state, number
of index mutations)`.  No matching chunk, or a failing store call
(`storeOk = false`), yields failure and leaves the index unchanged. -/
def deleteDocumentsBySource (storeOk : Bool) (db : List DbEntry) (src : String) :
    Bool × List DbEntry × Nat :=
  if (db.filter (fun e => e.source == src)).isEmpty then (false, db, 0)
  else if storeOk then (true, db.filter (fun e => e.source != src), 1)
  else (false, db, 0)

/-- Pair each list element with its position, starting at `n`. -/
def tagIdx {α : Type} : Nat → List α → List (Nat × α)
  | _, [] => []
  | n, a :: as => (n, a) :: tagIdx (n + 1) as

/-- The chunk entries inserted by `update_document` for one file: ids use
the path-hash-plus-ordinal scheme, metadata stores the file content hash. -/
def chunkEntriesForUpdate (md5 : String → String) (split : String → List String)
    (f : FileRec) : List DbEntry :=
  (tagIdx 0 (split f.content)).map
    (fun p => ⟨updateChunkId md5 f.path p.1, f.path, md5 f.content⟩)

/-- `update_document` / `update_document_async`: purge the old version; on
purge failure return failure immediately (nothing loaded, chunked or
inserted), otherwise re-chunk and insert the new version. -/
def updateDocument (storeOk : Bool) (md5 : String → String)
    (split : String → List String) (db : List DbEntry) (f : FileRec) :
    Bool × List DbEntry × Nat :=
  match deleteDocumentsBySource storeOk db f.path with
  | (false, db2, n) => (false, db2, n)
  | (true, db2, n) => (true, db2 ++ chunkEntriesForUpdate md5 split f, n + 1)

/-- The chunk entries inserted by the new-file path of
`_sync_legacy_data_directory` (content-hash ids, no ordinal). -/
def chunkEntriesForNewFile (md5 : String → String) (split : String → List String)
    (f : FileRec) : List DbEntry :=
  (split f.content).map (fun c => ⟨newFileChunkId md5 f.path c, f.path, md5 f.content⟩)

structure SyncPlan where
  newFiles : List FileRec
  modifiedFiles : List FileRec
  deletedFiles : List String
  unchangedFiles : List FileRec
deriving DecidableEq

/-- Steps 1-4 of `_sync_legacy_data_directory`: classify the current files
against the stored sources as new / modified / unchanged, and stored sources
with no current file as deleted (`AUTO_DELETE_MISSING_FILES`). -/
def classifyFiles (md5 : String → String) (db : List DbEntry) (fs : List FileRec) :
    SyncPlan :=
  let processed := dbSources db
  { newFiles := fs.filter (fun f => !(processed.contains f.path))
    modifiedFiles := fs.filter (fun f =>
      processed.contains f.path && (ENABLE_FILE_MONITORING && isFileModified md5 db f))
    deletedFiles :=
      if AUTO_DELETE_MISSING_FILES then
        processed.filter (fun p => !((fs.map (fun f => f.path)).contains p))
      else []
    unchangedFiles := fs.filter (fun f =>
      processed.contains f.path && !(ENABLE_FILE_MONITORING && isFileModified md5 db f)) }

/-- Step 6: purge each deleted source, counting index mutations. -/
def applyDeleted : List DbEntry → List String → List DbEntry × Nat
  | db, [] => (db, 0)
  | db, p :: ps =>
      let r := deleteDocumentsBySource true db p
      let rest := applyDeleted r.2.1 ps
      (rest.1, r.2.2 + rest.2)

/-- Step 7: run `update_document` on each modified file in order. -/
def applyModified (md5 : String → String) (split : String → List String) :
    List DbEntry → List FileRec → List DbEntry × Nat
  | db, [] => (db, 0)
  | db, f :: fsR =>
      let r := updateDocument true md5 split db f
      let rest := applyModified md5 split r.2.1 fsR
      (rest.1, r.2.2 + rest.2)

/-- Step 8: load, chunk and insert all new files with one add-documents
call (skipped entirely when there are no new files). -/
def applyNew (md5 : String → String) (split : String → List String)
    (db : List DbEntry) (newRecs : List FileRec) : List DbEntry × Nat :=
  if newRecs.isEmpty then (db, 0)
  else (db ++ (newRecs.map (chunkEntriesForNewFile md5 split)).flatten, 1)

/-- One full `_sync_legacy_data_directory` pass over a fixed filesystem
snapshot: classify, then apply deletions, updates and insertions; returns
the plan, the final index state and the number of index mutations. -/
def syncPass (md5 : String → String) (split : String → List String)
    (db : List DbEntry) (fs : List FileRec) : SyncPlan × List DbEntry × Nat :=
  let plan := classifyFiles md5 db fs
  let r1 := applyDeleted db plan.deletedFiles
  let r2 := applyModified md5 split r1.1 plan.modifiedFiles
  let r3 := applyNew md5 split r2.1 plan.newFiles
  (plan, r3.1, r1.2 + r2.2 + r3.2)

/-! ## Streaming answer generation (`StreamingRagPipeline.ask_stream`,
`_generate_streaming_answer`, `_stream_no_result_answer`)

An LLM call is abstracted as an `LlmRun`: the chunks it yields before either
finishing normally (`ok = true`) or raising (`ok = false`).  The event
payload models the `message` / `chunk` field of the event data. -/

inductive EventType where
  | processing
  | generationStart
  | generationChunk
  | generationEnd
  | error
  | complete
deriving DecidableEq

structure StreamEvent where
  etype : EventType
  payload : String
deriving DecidableEq

structure LlmRun where
  chunks : List String
  ok : Bool
deriving DecidableEq

def chunkEvents (cs : List String) : List StreamEvent :=
  cs.map (fun c => ⟨.generationChunk, c⟩)

/-- The fixed phrase `ask_stream` matches against the assembled answer. -/
def REFUSAL_SENTINEL : String := "根据提供的资料，我无法回答该问题"

def isPrefixListB : List Char → List Char → Bool
  | [], _ => true
  | _ :: _, [] => false
  | a :: as, b :: bs => a == b && isPrefixListB as bs

def isInfixListB (n : List Char) : List Char → Bool
  | [] => n.isEmpty
  | c :: t => isPrefixListB n (c :: t) || isInfixListB n t

/-- Python substring test `needle in hay`. -/
def containsSubstring (hay needle : String) : Bool :=
  isInfixListB needle.data hay.data

/-- `_generate_streaming_answer`: GenerationStart, one GenerationChunk per
LLM fragment, then GenerationEnd — or an Error event yielded by the
generator's own exception handler. -/
def genAnswerEvents (grounded : LlmRun) : List StreamEvent :=
  ⟨.generationStart, "基于知识库文档生成答案"⟩ ::
    (chunkEvents grounded.chunks ++
      (if grounded.ok then [⟨.generationEnd, "基于知识库的答案生成完成"⟩]
       else [⟨.error, "生成答案时出错"⟩]))

/-- The assembled knowledge-base answer: concatenation of the chunk payloads
collected from the buffered events. -/
def kbAnswer (grounded : LlmRun) : String :=
  String.join grounded.chunks

/-- `_stream_no_result_answer`: the model-knowledge fallback generation; its
own exception handler degrades to the refusal sentinel as a chunk followed
by GenerationEnd (no Error event). -/
def noResultEvents (fallback : LlmRun) : List StreamEvent :=
  ⟨.generationStart, "知识库未找到相关资料，使用大模型训练知识回答"⟩ ::
    (chunkEvents fallback.chunks ++
      (if fallback.ok then [⟨.generationEnd, "基于大模型训练知识的答案生成完成"⟩]
       else [⟨.generationChunk, "根据提供的资料，我无法回答该问题。"⟩,
             ⟨.generationEnd, "回答生成完成"⟩]))

/-- `ask_stream(question)` for one question: `initialized` is `qa_chain`
being set, `retrievalOk` is the rewrite/retrieve/rerank block completing
without an exception (`errText` the message of that exception otherwise),
`finalDocs` the grounding candidates, `grounded` / `fallback` the behavior
of the two possible LLM calls.  With candidates present the grounded events
are buffered; if the assembled answer contains the refusal sentinel they are
discarded in favor of the fallback generation, otherwise they are replayed;
a final Complete event is then emitted. -/
def askStreamEvents (initialized retrievalOk : Bool) (errText : String)
    (finalDocs : List Doc) (grounded fallback : LlmRun) : List StreamEvent :=
  if !initialized then [⟨.error, "问答链尚未初始化"⟩]
  else if !retrievalOk then
    [⟨.processing, "正在处理您的问题..."⟩, ⟨.error, errText⟩]
  else
    ⟨.processing, "正在处理您的问题..."⟩ ::
      ((if !finalDocs.isEmpty then
          (if containsSubstring (kbAnswer grounded) REFUSAL_SENTINEL then
            noResultEvents fallback
          else genAnswerEvents grounded)
        else noResultEvents fallback)
        ++ [⟨.complete, "回答完成"⟩])

def eventTypes (es : List StreamEvent) : List EventType :=
  es.map (fun e => e.etype)

/-- Automaton accepting the prefixes of `GenerationChunk* GenerationEnd
Complete` (the tail of the spec's event pattern after GenerationStart). -/
def tailFromGen : List EventType → Bool
  | [] => true
  | .generationChunk :: rest => tailFromGen rest
  | [.generationEnd] => true
  | [.generationEnd, .complete] => true
  | _ => false

/-- Automaton accepting the prefixes of
`Processing* GenerationStart GenerationChunk* GenerationEnd Complete`. -/
def goodPrefixRun : List EventType → Bool
  | [] => true
  | .processing :: rest => goodPrefixRun rest
  | .generationStart :: rest => tailFromGen rest
  | _ => false

/-- The event-sequence property claimed by the spec: a prefix of the full
pattern, or such a prefix terminated by a first and final Error event. -/
def eventSeqOk (es : List EventType) : Bool :=
  goodPrefixRun es ||
    (match es.getLast? with
     | some .error => goodPrefixRun es.dropLast
     | _ => false)

/-- Tail automaton for the additional shape the code can produce:
`GenerationChunk* Error Complete` after `Processing GenerationStart`. -/
def tailGenErrorComplete : List EventType → Bool
  | .generationChunk :: rest => tailGenErrorComplete rest
  | [.error, .complete] => true
  | _ => false

/-- The amended event-sequence property: the spec's pattern, or the shape
`Processing GenerationStart GenerationChunk* Error Complete` produced when
the buffered grounded generation ends in an Error event and is replayed. -/
def eventSeqOkAmended (es : List EventType) : Bool :=
  eventSeqOk es ||
    (match es with
     | .processing :: .generationStart :: rest => tailGenErrorComplete rest
     | _ => false)

/-! ## Batch orchestration (`batch_ask_stream`, `_collect_question_events`)

Each question's execution is `_collect_question_events`, which drains that
question's `ask_stream` into a list of timestamped events (converting an
escaping exception into a scoped Error event), so every gathered task result
is a normal list and `successful_count` counts them all.  The merged stream
sorts all collected events by timestamp (Python's stable `list.sort`,
modelled as a stable insertion sort). -/

structure TimedEvent where
  ts : Nat
  ev : StreamEvent
deriving DecidableEq

inductive BatchOut where
  | batchStart (total : Nat)
  | qEvent (questionIndex : Nat) (ts : Nat) (ev : StreamEvent)
  | batchComplete (succeeded total : Nat)
deriving DecidableEq

/-- All collected events tagged with their 1-based question index
(`batch_index` metadata). -/
def taggedEvents (qruns : List (List TimedEvent)) : List (Nat × TimedEvent) :=
  ((tagIdx 1 qruns).map (fun p => p.2.map (fun te => (p.1, te)))).flatten

/-- Stable insertion of an event into a timestamp-sorted list. -/
def insertByTs (x : Nat × TimedEvent) : List (Nat × TimedEvent) → List (Nat × TimedEvent)
  | [] => [x]
  | y :: ys => if y.2.ts ≤ x.2.ts then y :: insertByTs x ys else x :: y :: ys

/-- Stable sort by timestamp (`all_events.sort(key=lambda e: e.timestamp)`). -/
def sortByTs : List (Nat × TimedEvent) → List (Nat × TimedEvent)
  | [] => []
  | x :: xs => insertByTs x (sortByTs xs)

/-- `batch_ask_stream(questions)`, given each question's collected
timestamped events: an opening Processing event, the timestamp-sorted merge
of all question events, and a final Complete event whose reported
`successful_count` is the number of gathered results that are not
exceptions — all of them, since `_collect_question_events` catches
exceptions internally. -/
def batchAskStream (qruns : List (List TimedEvent)) : List BatchOut :=
  if qruns.isEmpty then []
  else
    .batchStart qruns.length ::
      ((sortByTs (taggedEvents qruns)).map (fun p => .qEvent p.1 p.2.ts p.2.ev)
        ++ [.batchComplete qruns.length qruns.length])

/-- The number of questions that actually succeeded, in the spec's sense: a
question whose stream contains an Error event did not succeed. -/
def specSucceededCount (qruns : List (List TimedEvent)) : Nat :=
  (qruns.filter (fun run => !(run.any (fun te => te.ev.etype == .error)))).length

/-- The index is in sync with a filesystem snapshot: every current file has
a stored record whose hash is the current content hash, and every stored
chunk belongs to a current file. -/
def SyncedDb (md5 : String → String) (db : List DbEntry) (fs : List FileRec) : Prop :=
  (∀ f ∈ fs, ∃ e, findFileMetadata db f.path = some e ∧ e.fileHash = md5 f.content) ∧
  (∀ e ∈ db, ∃ f ∈ fs, e.source = f.path)

lemma evictOldest_length_le (budget minRounds : Nat) :
    ∀ ts : List ConversationTurn, (evictOldest budget minRounds ts).length ≤ ts.length
  | [] => by simp [evictOldest]
  | t :: rest => by
      rw [evictOldest]
      split
      · exact le_trans (evictOldest_length_le budget minRounds rest) (by simp)
      · exact le_refl _

lemma evictOldest_floor (budget minRounds : Nat) :
    ∀ ts : List ConversationTurn,
      min ts.length minRounds ≤ (evictOldest budget minRounds ts).length
  | [] => by simp [evictOldest]
  | t :: rest => by
      rw [evictOldest]
      split
      · rename_i h
        have hm : minRounds ≤ rest.length := by
          have := h.2
          simp only [List.length_cons] at this
          omega
        have := evictOldest_floor budget minRounds rest
        omega
      · omega

lemma evictOldest_budget (budget minRounds : Nat) :
    ∀ ts : List ConversationTurn,
      minRounds < (evictOldest budget minRounds ts).length →
      totalChars (evictOldest budget minRounds ts) ≤ budget
  | [] => by simp [evictOldest, totalChars]
  | t :: rest => by
      rw [evictOldest]
      split
      · exact evictOldest_budget budget minRounds rest
      · rename_i h
        intro hlen
        rw [not_and_or] at h
        rcases h with h | h
        · omega
        · exact absurd hlen h

/-! ## Claim C7: rerank fallback -/

/-- C7: for every candidate list and query, if the reranking scorer raises,
the compress step falls back to the first `RERANKER_TOP_N` candidates in
their pre-rerank order; the failure is absorbed (a normal candidate list is
returned), never propagated as a fatal error. -/
theorem rerank_scorer_failure_falls_back
    (scorer : List Doc → String → Except String (List Doc))
    (docs : List Doc) (q e : String) (h : scorer docs q = Except.error e) :
    rerankStage scorer docs q = docs.take RERANKER_TOP_N := by
  unfold rerankStage
  split
  · rfl
  · rw [h]

/-- Witness for C7 at a concrete failing scorer and two candidates. -/
theorem rerank_scorer_failure_falls_back_witness :
    rerankStage (fun _ _ => Except.error "boom")
        [⟨"Alpha", "general", "a.txt"⟩, ⟨"Beta", "general", "b.txt"⟩] "q"
      = [Doc.mk "Alpha" "general" "a.txt", Doc.mk "Beta" "general" "b.txt"].take
          RERANKER_TOP_N :=
  rerank_scorer_failure_falls_back (fun _ _ => Except.error "boom")
    [⟨"Alpha", "general", "a.txt"⟩, ⟨"Beta", "general", "b.txt"⟩] "q" "boom" rfl

/-! ## Claim C8: query expansion -/

/-- C8: for every input question, `_rewrite_query` returns a list whose
element 0 is the original question followed by at most
`QUERY_REWRITE_COUNT` rewritten variants, and if the generation-service
call fails it returns exactly the one-element list with the original
question, without raising. -/
theorem rewriteQuery_spec (q : String) (resp : Except String String) :
    (rewriteQuery q resp).head? = some q ∧
    (rewriteQuery q resp).length ≤ 1 + QUERY_REWRITE_COUNT ∧
    (∀ e, resp = Except.error e → rewriteQuery q resp = [q]) := by
  cases resp with
  | error e =>
      refine ⟨?_, ?_, ?_⟩ <;> simp [rewriteQuery, ENABLE_QUERY_REWRITING, QUERY_REWRITE_COUNT]
  | ok c =>
      refine ⟨?_, ?_, ?_⟩
      · simp [rewriteQuery, ENABLE_QUERY_REWRITING]
      · simp only [rewriteQuery, ENABLE_QUERY_REWRITING, if_true, List.length_cons]
        have := List.length_take_le QUERY_REWRITE_COUNT (parseRewrites c)
        omega
      · intro e h
        exact absurd h (by simp)

/-- Witness for C8 at a concrete question and failing LLM call. -/
theorem rewriteQuery_spec_witness :
    rewriteQuery "什么是机器学习" (Except.error "timeout") = ["什么是机器学习"] :=
  (rewriteQuery_spec "什么是机器学习" (Except.error "timeout")).2.2 "timeout" rfl

/-! ## Claim C9: bounded conversational memory (modelled from the spec) -/

/-- C9: after an `add`, if the turn count still exceeds the minimum floor
then the total character length is within budget, and eviction never brings
the turn count below the floor when the appended buffer reached it. -/
theorem memory_add_bound (budget minRounds : Nat) (buf : List ConversationTurn)
    (t : ConversationTurn) :
    (minRounds < (addTurn budget minRounds buf t).length →
      totalChars (addTurn budget minRounds buf t) ≤ budget) ∧
    (minRounds ≤ buf.length + 1 → minRounds ≤ (addTurn budget minRounds buf t).length) := by
  constructor
  · exact evictOldest_budget budget minRounds (buf ++ [t])
  · intro h
    have hf := evictOldest_floor budget minRounds (buf ++ [t])
    have hl : (buf ++ [t]).length = buf.length + 1 := by simp
    unfold addTurn
    omega

/-- Witness for C9 at a concrete buffer, budget and floor. -/
theorem memory_add_bound_witness :
    totalChars (addTurn 100 1 [⟨"aa", "bb"⟩, ⟨"cc", "dd"⟩] ⟨"ee", "ff"⟩) ≤ 100 ∧
    1 ≤ (addTurn 100 1 [⟨"aa", "bb"⟩, ⟨"cc", "dd"⟩] ⟨"ee", "ff"⟩).length :=
  ⟨(memory_add_bound 100 1 [⟨"aa", "bb"⟩, ⟨"cc", "dd"⟩] ⟨"ee", "ff"⟩).1 (by decide),
   (memory_add_bound 100 1 [⟨"aa", "bb"⟩, ⟨"cc", "dd"⟩] ⟨"ee", "ff"⟩).2 (by decide)⟩

/-! ## Claim C10: single-document update is atomic on purge failure -/

lemma deleteDocumentsBySource_failure (storeOk : Bool) (db : List DbEntry)
    (src : String) (h : (deleteDocumentsBySource storeOk db src).1 = false) :
    deleteDocumentsBySource storeOk db src = (false, db, 0) := by
  unfold deleteDocumentsBySource at h ⊢
  split at h
  · rename_i hemp
    rw [if_pos hemp]
  · rename_i hemp
    split at h
    · exact absurd h (by simp)
    · rename_i hstore
      rw [if_neg hemp, if_neg hstore]

/-- C10: if the purge step of `update_document` fails — in particular when
no indexed chunk has the given source path — the update returns failure
without chunking or inserting anything and leaves the index unchanged. -/
theorem updateDocument_purge_failure_atomic (storeOk : Bool)
    (md5 : String → String) (split : String → List String)
    (db : List DbEntry) (f : FileRec) :
    ((∀ c ∈ db, c.source ≠ f.path) →
      (deleteDocumentsBySource storeOk db f.path).1 = false) ∧
    ((deleteDocumentsBySource storeOk db f.path).1 = false →
      updateDocument storeOk md5 split db f = (false, db, 0)) := by
  constructor
  · intro h
    unfold deleteDocumentsBySource
    have : db.filter (fun e => e.source == f.path) = [] := by
      rw [List.filter_eq_nil_iff]
      intro e he
      simpa using h e he
    simp [this]
  · intro h
    unfold updateDocument
    rw [deleteDocumentsBySource_failure storeOk db f.path h]

/-- Witness for C10: a concrete index holding only another file's chunk. -/
theorem updateDocument_purge_failure_atomic_witness :
    updateDocument true (fun s => s) (fun c => [c])
        [⟨"id1", "b.txt", "h"⟩] ⟨"a.txt", "Alpha"⟩
      = (false, [⟨"id1", "b.txt", "h"⟩], 0) :=
  (updateDocument_purge_failure_atomic true (fun s => s) (fun c => [c])
      [⟨"id1", "b.txt", "h"⟩] ⟨"a.txt", "Alpha"⟩).2 (by decide)

/-! ## Claim C2: chunk id scheme differs between insertion paths -/

/-- C2: on the modified-file re-insertion path the chunk id is the
documented `prefix + md5(sourcePath) + "_" + ordinal`, but on the new-file
insertion path of `_sync_legacy_data_directory` the id is
`prefix + md5(sourcePath + "_" + content)` — content-dependent and without
an ordinal — so for the spec's scenario (new file `a.txt` = `Alpha`) the two
paths disagree for any hash returning 32-character digests, as md5 hex
digests do. -/
theorem chunkId_newFile_path_deviates (md5 : String → String)
    (h : ∀ s, (md5 s).length = 32) :
    updateChunkId md5 "a.txt" 0 = specChunkId md5 "a.txt" 0 ∧
    newFileChunkId md5 "a.txt" "Alpha" ≠ specChunkId md5 "a.txt" 0 := by
  refine ⟨rfl, ?_⟩
  intro heq
  have hlen := congrArg String.length heq
  rw [newFileChunkId, specChunkId] at hlen
  simp only [String.length_append, h] at hlen
  have h4 : (DOCUMENT_ID_PREFIX).length = 4 := rfl
  have h1 : ("_" : String).length = 1 := rfl
  have h0 : (toString (0 : Nat)).length = 1 := rfl
  omega

/-- Witness for C2 with a concrete 32-character digest function. -/
theorem chunkId_newFile_path_deviates_witness :
    updateChunkId (fun _ => "0123456789abcdef0123456789abcdef") "a.txt" 0
      = specChunkId (fun _ => "0123456789abcdef0123456789abcdef") "a.txt" 0 ∧
    newFileChunkId (fun _ => "0123456789abcdef0123456789abcdef") "a.txt" "Alpha"
      ≠ specChunkId (fun _ => "0123456789abcdef0123456789abcdef") "a.txt" 0 :=
  chunkId_newFile_path_deviates (fun _ => "0123456789abcdef0123456789abcdef")
    (fun _ => rfl)

/-! ## Claim C1: empty category scope falls back to the unscoped corpus -/

/-- C1 counterexample: a corpus with one `general` document, queried with
`categories = ["technical"]` (which matches no indexed document), returns
that document — the scoped corpus is empty, yet the result is not. -/
theorem scoped_retrieval_empty_scope_counterexample :
    ([(⟨"Alpha", "general", "a.txt"⟩ : Doc)].filter
        (fun d => (["technical"] : List String).contains d.category)) = [] ∧
    retrieveWithMultipleQueriesAndCategories (fun corpus k _ => corpus.take k)
        [⟨"Alpha", "general", "a.txt"⟩] ["q"] ["technical"]
      = [⟨"Alpha", "general", "a.txt"⟩] := by
  constructor
  · rfl
  · rfl

lemma retrieveMultiAux_corpus_congr (search : List Doc → Nat → String → List Doc)
    (allDocs : List Doc) (c1 c2 : List String)
    (h : buildCategoryRetrieverCorpus allDocs c1 = buildCategoryRetrieverCorpus allDocs c2) :
    ∀ qs i seen acc,
      retrieveMultiAux search allDocs c1 qs i seen acc
        = retrieveMultiAux search allDocs c2 qs i seen acc
  | [], _, _, _ => rfl
  | q :: qs, i, seen, acc => by
      rw [retrieveMultiAux, retrieveMultiAux, h]
      exact retrieveMultiAux_corpus_congr search allDocs c1 c2 h qs (i + 1) _ _

/-- C1 (amended): when a non-empty `categories` list matches no indexed
document, retrieval does not return an empty result; it silently falls back
to the whole, unscoped corpus — the result is exactly that of the same
retrieval with no category restriction. -/
theorem scoped_retrieval_empty_scope_falls_back_unscoped
    (search : List Doc → Nat → String → List Doc) (allDocs : List Doc)
    (queries : List String) (categories : List String)
    (hne : categories ≠ [])
    (hempty : allDocs.filter (fun d => categories.contains d.category) = []) :
    retrieveWithMultipleQueriesAndCategories search allDocs queries categories
      = retrieveWithMultipleQueriesAndCategories search allDocs queries [] := by
  have hcorp : buildCategoryRetrieverCorpus allDocs categories
      = buildCategoryRetrieverCorpus allDocs [] := by
    have h1 : categories.isEmpty = false := by
      cases categories with
      | nil => exact absurd rfl hne
      | cons a as => rfl
    unfold buildCategoryRetrieverCorpus
    rw [h1, hempty]
    simp
  exact retrieveMultiAux_corpus_congr search allDocs categories [] hcorp queries 0 [] []

/-- Witness for C1 (amended) at a concrete corpus and category list. -/
theorem scoped_retrieval_empty_scope_falls_back_unscoped_witness :
    retrieveWithMultipleQueriesAndCategories (fun corpus _ _ => corpus)
        [⟨"Beta", "general", "b.txt"⟩] ["q1", "q2"] ["product"]
      = retrieveWithMultipleQueriesAndCategories (fun corpus _ _ => corpus)
        [⟨"Beta", "general", "b.txt"⟩] ["q1", "q2"] [] :=
  scoped_retrieval_empty_scope_falls_back_unscoped (fun corpus _ _ => corpus)
    [⟨"Beta", "general", "b.txt"⟩] ["q1", "q2"] ["product"] (by decide) (by decide)

/-! ## Claim C3: the per-question event sequence -/

lemma map_etype_chunkEvents (cs : List String) :
    (chunkEvents cs).map (fun e => e.etype)
      = List.replicate cs.length EventType.generationChunk := by
  induction cs with
  | nil => rfl
  | cons c cs ih =>
      show EventType.generationChunk :: (chunkEvents cs).map (fun e => e.etype)
          = EventType.generationChunk :: List.replicate cs.length EventType.generationChunk
      exact congrArg (List.cons EventType.generationChunk) ih

lemma tailFromGen_chunks (n : Nat) (tail : List EventType)
    (h : tailFromGen tail = true) :
    tailFromGen (List.replicate n EventType.generationChunk ++ tail) = true := by
  induction n with
  | zero => simpa
  | succ n ih => simpa [List.replicate_succ, tailFromGen] using ih

lemma tailGenErrorComplete_chunks (n : Nat) :
    tailGenErrorComplete
      (List.replicate n EventType.generationChunk
        ++ [EventType.error, EventType.complete]) = true := by
  induction n with
  | zero => rfl
  | succ n ih => simpa [List.replicate_succ, tailGenErrorComplete] using ih

lemma seqOkAmended_of_noResult (f : LlmRun) (p c : String) :
    eventSeqOkAmended (eventTypes
      (⟨.processing, p⟩ :: (noResultEvents f ++ [⟨.complete, c⟩]))) = true := by
  cases hok : f.ok
  · have htypes : eventTypes (⟨.processing, p⟩ :: (noResultEvents f ++ [⟨.complete, c⟩]))
        = .processing :: .generationStart ::
            (List.replicate f.chunks.length EventType.generationChunk
              ++ [.generationChunk, .generationEnd, .complete]) := by
      simp [eventTypes, noResultEvents, hok, map_etype_chunkEvents]
    rw [htypes]
    have hg : goodPrefixRun (.processing :: .generationStart ::
        (List.replicate f.chunks.length EventType.generationChunk
          ++ [.generationChunk, .generationEnd, .complete])) = true := by
      simp only [goodPrefixRun]
      exact tailFromGen_chunks f.chunks.length [.generationChunk, .generationEnd, .complete] rfl
    simp [eventSeqOkAmended, eventSeqOk, hg]
  · have htypes : eventTypes (⟨.processing, p⟩ :: (noResultEvents f ++ [⟨.complete, c⟩]))
        = .processing :: .generationStart ::
            (List.replicate f.chunks.length EventType.generationChunk
              ++ [.generationEnd, .complete]) := by
      simp [eventTypes, noResultEvents, hok, map_etype_chunkEvents]
    rw [htypes]
    have hg : goodPrefixRun (.processing :: .generationStart ::
        (List.replicate f.chunks.length EventType.generationChunk
          ++ [.generationEnd, .complete])) = true := by
      simp only [goodPrefixRun]
      exact tailFromGen_chunks f.chunks.length [.generationEnd, .complete] rfl
    simp [eventSeqOkAmended, eventSeqOk, hg]

lemma seqOkAmended_of_gen (g : LlmRun) (p c : String) :
    eventSeqOkAmended (eventTypes
      (⟨.processing, p⟩ :: (genAnswerEvents g ++ [⟨.complete, c⟩]))) = true := by
  cases hok : g.ok
  · have htypes : eventTypes (⟨.processing, p⟩ :: (genAnswerEvents g ++ [⟨.complete, c⟩]))
        = .processing :: .generationStart ::
            (List.replicate g.chunks.length EventType.generationChunk
              ++ [.error, .complete]) := by
      simp [eventTypes, genAnswerEvents, hok, map_etype_chunkEvents]
    rw [htypes]
    have h2 := tailGenErrorComplete_chunks g.chunks.length
    simp [eventSeqOkAmended, h2]
  · have htypes : eventTypes (⟨.processing, p⟩ :: (genAnswerEvents g ++ [⟨.complete, c⟩]))
        = .processing :: .generationStart ::
            (List.replicate g.chunks.length EventType.generationChunk
              ++ [.generationEnd, .complete]) := by
      simp [eventTypes, genAnswerEvents, hok, map_etype_chunkEvents]
    rw [htypes]
    have hg : goodPrefixRun (.processing :: .generationStart ::
        (List.replicate g.chunks.length EventType.generationChunk
          ++ [.generationEnd, .complete])) = true := by
      simp only [goodPrefixRun]
      exact tailFromGen_chunks g.chunks.length [.generationEnd, .complete] rfl
    simp [eventSeqOkAmended, eventSeqOk, hg]

/-- C3 counterexample: with grounding candidates present and a grounded LLM
call that raises before yielding any fragment, `ask_stream` emits
`Processing, GenerationStart, Error, Complete` — a Complete event follows
the Error event, so the claimed pattern (Error is terminal) is violated. -/
theorem askStream_error_then_complete_counterexample :
    eventTypes (askStreamEvents true true "检索失败" [⟨"Alpha", "general", "a.txt"⟩]
        ⟨[], false⟩ ⟨[], true⟩)
      = [.processing, .generationStart, .error, .complete] ∧
    eventSeqOk [.processing, .generationStart, .error, .complete] = false := by
  constructor
  · decide
  · decide

/-- C3 (amended): every `ask_stream` event sequence is a prefix of
`Processing* GenerationStart GenerationChunk* GenerationEnd Complete`, or
terminates at a top-level Error event, or — when the buffered grounded
generation ends in an Error event that is replayed — has the shape
`Processing GenerationStart GenerationChunk* Error Complete`. -/
theorem askStream_event_sequences_amended (initialized retrievalOk : Bool)
    (errText : String) (finalDocs : List Doc) (grounded fallback : LlmRun) :
    eventSeqOkAmended (eventTypes
      (askStreamEvents initialized retrievalOk errText finalDocs grounded fallback))
      = true := by
  cases initialized
  · have h : eventTypes (askStreamEvents false retrievalOk errText finalDocs grounded fallback)
        = [.error] := rfl
    rw [h]
    decide
  · cases retrievalOk
    · have h : eventTypes (askStreamEvents true false errText finalDocs grounded fallback)
          = [.processing, .error] := rfl
      rw [h]
      decide
    · have hrw : askStreamEvents true true errText finalDocs grounded fallback
          = ⟨.processing, "正在处理您的问题..."⟩ ::
              ((if !finalDocs.isEmpty then
                  (if containsSubstring (kbAnswer grounded) REFUSAL_SENTINEL then
                    noResultEvents fallback
                  else genAnswerEvents grounded)
                else noResultEvents fallback)
                ++ [⟨.complete, "回答完成"⟩]) := rfl
      rw [hrw]
      split
      · split
        · exact seqOkAmended_of_noResult fallback _ _
        · exact seqOkAmended_of_gen grounded _ _
      · exact seqOkAmended_of_noResult fallback _ _

/-! ## Claim C4: sentinel detection is containment, not equality -/

/-- C4 counterexample: a grounded answer that strictly contains (but does
not equal) the refusal sentinel: the claim requires the buffered grounded
events to be emitted unchanged, yet the code discards them and emits the
model-knowledge fallback generation instead. -/
theorem askStream_sentinel_containment_counterexample :
    kbAnswer ⟨["根据提供的资料，我无法回答该问题。"], true⟩ ≠ REFUSAL_SENTINEL ∧
    askStreamEvents true true "e" [⟨"Alpha", "general", "a.txt"⟩]
        ⟨["根据提供的资料，我无法回答该问题。"], true⟩ ⟨["北京是中国的首都"], true⟩
      ≠ ⟨.processing, "正在处理您的问题..."⟩ ::
          (genAnswerEvents ⟨["根据提供的资料，我无法回答该问题。"], true⟩
            ++ [⟨.complete, "回答完成"⟩]) := by
  constructor
  · decide
  · decide

/-- C4 (amended): with non-empty grounding candidates the grounded events
are buffered; they are discarded and the memory-only model-knowledge
fallback generation (distinctly tagged) is emitted instead exactly when the
assembled grounded answer CONTAINS the refusal sentinel as a substring;
when it does not contain the sentinel the buffered events are emitted
unchanged. -/
theorem askStream_sentinel_containment_decides (errText : String)
    (finalDocs : List Doc) (grounded fallback : LlmRun)
    (hne : finalDocs ≠ []) :
    (containsSubstring (kbAnswer grounded) REFUSAL_SENTINEL = true →
      askStreamEvents true true errText finalDocs grounded fallback
        = ⟨.processing, "正在处理您的问题..."⟩ ::
            (noResultEvents fallback ++ [⟨.complete, "回答完成"⟩])) ∧
    (containsSubstring (kbAnswer grounded) REFUSAL_SENTINEL = false →
      askStreamEvents true true errText finalDocs grounded fallback
        = ⟨.processing, "正在处理您的问题..."⟩ ::
            (genAnswerEvents grounded ++ [⟨.complete, "回答完成"⟩])) := by
  have hd : finalDocs.isEmpty = false := by
    cases finalDocs with
    | nil => exact absurd rfl hne
    | cons a as => rfl
  have hrw : askStreamEvents true true errText finalDocs grounded fallback
      = ⟨.processing, "正在处理您的问题..."⟩ ::
          ((if !finalDocs.isEmpty then
              (if containsSubstring (kbAnswer grounded) REFUSAL_SENTINEL then
                noResultEvents fallback
              else genAnswerEvents grounded)
            else noResultEvents fallback)
            ++ [⟨.complete, "回答完成"⟩]) := rfl
  constructor
  · intro h
    rw [hrw]
    simp [hd, h]
  · intro h
    rw [hrw]
    simp [hd, h]

/-- Witness for C4 (amended) at a grounded answer free of the sentinel. -/
theorem askStream_sentinel_containment_decides_witness :
    askStreamEvents true true "e" [⟨"Alpha", "general", "a.txt"⟩]
        ⟨["你好"], true⟩ ⟨[], true⟩
      = ⟨.processing, "正在处理您的问题..."⟩ ::
          (genAnswerEvents ⟨["你好"], true⟩ ++ [⟨.complete, "回答完成"⟩]) :=
  (askStream_sentinel_containment_decides "e" [⟨"Alpha", "general", "a.txt"⟩]
      ⟨["你好"], true⟩ ⟨[], true⟩ (by decide)).2 (by decide)

/-! ## Claim C6: batch isolation and the final Complete event -/

lemma mem_insertByTs (x y : Nat × TimedEvent) :
    ∀ l : List (Nat × TimedEvent), y ∈ insertByTs x l ↔ y = x ∨ y ∈ l
  | [] => by simp [insertByTs]
  | z :: zs => by
      rw [insertByTs]
      split
      · simp only [List.mem_cons, mem_insertByTs x y zs]
        tauto
      · exact List.mem_cons

lemma mem_sortByTs (y : Nat × TimedEvent) :
    ∀ l : List (Nat × TimedEvent), y ∈ sortByTs l ↔ y ∈ l
  | [] => Iff.rfl
  | x :: xs => by
      rw [sortByTs, mem_insertByTs, mem_sortByTs y xs, List.mem_cons]

lemma mem_tagIdx {α : Type} :
    ∀ (l : List α) (n i : Nat) (a : α), l[i]? = some a → (n + i, a) ∈ tagIdx n l
  | [], _, i, a, h => by simp at h
  | x :: xs, n, 0, a, h => by
      simp only [List.getElem?_cons_zero, Option.some.injEq] at h
      subst h
      simp [tagIdx]
  | x :: xs, n, i + 1, a, h => by
      simp only [List.getElem?_cons_succ] at h
      have hmem := mem_tagIdx xs (n + 1) i a h
      have harith : n + (i + 1) = (n + 1) + i := by omega
      rw [harith, tagIdx]
      exact List.mem_cons_of_mem _ hmem

/-- C6 counterexample: two questions, the first of which fails (its
collected stream is a scoped Error event); the final Complete event reports
`2/2` succeeded — `successful_count` counts every gathered task result,
and `_collect_question_events` converts failures into events instead of
letting the task fail — even though only one question actually succeeded. -/
theorem batch_complete_count_counterexample :
    (batchAskStream
        [[⟨0, ⟨.error, "处理问题失败"⟩⟩],
         [⟨1, ⟨.processing, "p"⟩⟩, ⟨2, ⟨.generationStart, "s"⟩⟩,
          ⟨3, ⟨.generationChunk, "x"⟩⟩, ⟨4, ⟨.generationEnd, "e"⟩⟩,
          ⟨5, ⟨.complete, "c"⟩⟩]]).getLast?
      = some (.batchComplete 2 2) ∧
    specSucceededCount
        [[⟨0, ⟨.error, "处理问题失败"⟩⟩],
         [⟨1, ⟨.processing, "p"⟩⟩, ⟨2, ⟨.generationStart, "s"⟩⟩,
          ⟨3, ⟨.generationChunk, "x"⟩⟩, ⟨4, ⟨.generationEnd, "e"⟩⟩,
          ⟨5, ⟨.complete, "c"⟩⟩]] = 1 ∧
    (batchAskStream
        [[⟨0, ⟨.error, "处理问题失败"⟩⟩],
         [⟨1, ⟨.processing, "p"⟩⟩, ⟨2, ⟨.generationStart, "s"⟩⟩,
          ⟨3, ⟨.generationChunk, "x"⟩⟩, ⟨4, ⟨.generationEnd, "e"⟩⟩,
          ⟨5, ⟨.complete, "c"⟩⟩]]).getLast?
      ≠ some (.batchComplete 1 2) := by
  refine ⟨by decide, by decide, by decide⟩

/-- C6 (amended): for every non-empty question list, every event collected
from every question's execution — including the scoped Error event a
failing question contributes — appears in the merged stream tagged with
that question's index, and the stream ends with a Complete event reporting
`total/total`: the reported succeeded count is the number of gathered task
results, which (failures having been converted to Error events inside the
per-question collector) is the total, not the number of questions free of
failure. -/
theorem batch_events_merged_and_complete (qruns : List (List TimedEvent))
    (h : qruns ≠ []) :
    (∀ i run, qruns[i]? = some run → ∀ te ∈ run,
        BatchOut.qEvent (i + 1) te.ts te.ev ∈ batchAskStream qruns) ∧
    (batchAskStream qruns).getLast?
      = some (.batchComplete qruns.length qruns.length) := by
  have hne : qruns.isEmpty = false := by
    cases qruns with
    | nil => exact absurd rfl h
    | cons a as => rfl
  constructor
  · intro i run hrun te hte
    have h1 : ((i + 1 : Nat), te) ∈ taggedEvents qruns := by
      unfold taggedEvents
      rw [List.mem_flatten]
      refine ⟨run.map (fun te2 => (i + 1, te2)), ?_, ?_⟩
      · refine List.mem_map.mpr ⟨(i + 1, run), ?_, rfl⟩
        have hm := mem_tagIdx qruns 1 i run hrun
        rw [Nat.add_comm 1 i] at hm
        exact hm
      · exact List.mem_map.mpr ⟨te, hte, rfl⟩
    have h2 : ((i + 1 : Nat), te) ∈ sortByTs (taggedEvents qruns) :=
      (mem_sortByTs _ _).mpr h1
    unfold batchAskStream
    rw [if_neg (by simp [hne])]
    refine List.mem_cons_of_mem _ (List.mem_append_left _ ?_)
    exact List.mem_map.mpr ⟨(i + 1, te), h2, rfl⟩
  · unfold batchAskStream
    rw [if_neg (by simp [hne])]
    rw [← List.cons_append, List.getLast?_concat]

/-- Witness for C6 (amended) at a single one-event question. -/
theorem batch_events_merged_and_complete_witness :
    (batchAskStream [[⟨0, ⟨.complete, "a"⟩⟩]]).getLast?
      = some (.batchComplete 1 1) :=
  (batch_events_merged_and_complete [[⟨0, ⟨.complete, "a"⟩⟩]] (by decide)).2

/-! ## Claim C5: sync idempotence -/

lemma deleteDocumentsBySource_fst (db : List DbEntry) (p : String) :
    (deleteDocumentsBySource true db p).2.1
      = db.filter (fun e => e.source != p) := by
  unfold deleteDocumentsBySource
  split
  · rename_i hemp
    rw [List.isEmpty_eq_true, List.filter_eq_nil_iff] at hemp
    have hall : db.filter (fun e => e.source != p) = db := by
      rw [List.filter_eq_self]
      intro e he
      rw [bne_iff_ne]
      intro heq
      exact hemp e he (by simp [heq])
    exact hall.symm
  · rfl

lemma applyDeleted_fst :
    ∀ (D : List String) (db : List DbEntry),
      (applyDeleted db D).1 = db.filter (fun e => !(D.contains e.source))
  | [], db => by
      show db = db.filter _
      symm
      rw [List.filter_eq_self]
      intro e _
      rfl
  | p :: ps, db => by
      show (applyDeleted (deleteDocumentsBySource true db p).2.1 ps).1 = _
      rw [deleteDocumentsBySource_fst, applyDeleted_fst ps, List.filter_filter]
      apply List.filter_congr
      intro e _
      cases h1 : (e.source == p) <;> cases h2 : ps.contains e.source <;>
        (simp only [List.contains_cons, h1, h2, bne]; rfl)

lemma find?_filter_compat (g pq : DbEntry → Bool)
    (h : ∀ e, pq e = true → g e = true) :
    ∀ db : List DbEntry, (db.filter g).find? pq = db.find? pq
  | [] => rfl
  | e :: db => by
      cases hpq : pq e
      · cases hg : g e
        · simp only [List.filter_cons, hg, Bool.false_eq_true, if_false]
          rw [find?_filter_compat g pq h db, List.find?_cons_of_neg _ (by simp [hpq])]
        · simp only [List.filter_cons, hg, if_true]
          rw [List.find?_cons_of_neg _ (by simp [hpq]),
            List.find?_cons_of_neg _ (by simp [hpq])]
          exact find?_filter_compat g pq h db
      · have hg : g e = true := h e hpq
        simp only [List.filter_cons, hg, if_true]
        rw [List.find?_cons_of_pos _ hpq, List.find?_cons_of_pos _ hpq]

lemma findFileMetadata_applyDeleted (db : List DbEntry) (D : List String)
    (q : String) (hq : q ∉ D) :
    findFileMetadata (applyDeleted db D).1 q = findFileMetadata db q := by
  unfold findFileMetadata
  rw [applyDeleted_fst]
  apply find?_filter_compat
  intro e he
  have heq : e.source = q := by simpa using he
  rw [heq]
  simp [hq]

lemma mem_applyDeleted (db : List DbEntry) (D : List String) (e : DbEntry)
    (he : e ∈ (applyDeleted db D).1) : e ∈ db ∧ e.source ∉ D := by
  rw [applyDeleted_fst] at he
  have := List.mem_filter.mp he
  refine ⟨this.1, ?_⟩
  have h2 := this.2
  simpa using h2

lemma updateDocument_characterize (md5 : String → String)
    (split : String → List String) (db : List DbEntry) (f : FileRec) :
    (updateDocument true md5 split db f).2.1
      = db.filter (fun e => e.source != f.path)
          ++ (if (db.filter (fun e => e.source == f.path)).isEmpty then []
              else chunkEntriesForUpdate md5 split f) := by
  cases hemp : (db.filter (fun e => e.source == f.path)).isEmpty with
  | true =>
      have hdel : deleteDocumentsBySource true db f.path = (false, db, 0) := by
        unfold deleteDocumentsBySource
        rw [if_pos hemp]
      have hall : db.filter (fun e => e.source != f.path) = db := by
        rw [List.filter_eq_self]
        intro e he
        rw [bne_iff_ne]
        intro heq
        rw [List.isEmpty_eq_true, List.filter_eq_nil_iff] at hemp
        exact hemp e he (by simp [heq])
      simp only [updateDocument, hdel, hemp, if_true, List.append_nil]
      exact hall.symm
  | false =>
      have hdel : deleteDocumentsBySource true db f.path
          = (true, db.filter (fun e => e.source != f.path), 1) := by
        unfold deleteDocumentsBySource
        rw [hemp]
        simp
      simp only [updateDocument, hdel, hemp, Bool.false_eq_true, if_false]

lemma findFileMetadata_updateDocument_other (md5 : String → String)
    (split : String → List String) (db : List DbEntry) (f : FileRec)
    (q : String) (hq : q ≠ f.path) :
    findFileMetadata (updateDocument true md5 split db f).2.1 q
      = findFileMetadata db q := by
  unfold findFileMetadata
  rw [updateDocument_characterize, List.find?_append]
  have h1 : (db.filter (fun e => e.source != f.path)).find?
      (fun e => e.source == q) = db.find? (fun e => e.source == q) := by
    apply find?_filter_compat
    intro e he
    have heq : e.source = q := by simpa using he
    rw [heq, bne_iff_ne]
    exact hq
  have h2 : (List.find? (fun e => e.source == q)
      (if (db.filter (fun e => e.source == f.path)).isEmpty then []
       else chunkEntriesForUpdate md5 split f)) = none := by
    split
    · rfl
    · rw [List.find?_eq_none]
      intro x hx
      have : x.source = f.path := by
        rcases List.mem_map.mp hx with ⟨p, _, hp⟩
        rw [← hp]
      rw [this]
      simp [Ne.symm hq]
  rw [h1, h2, Option.or_none]

lemma findFileMetadata_updateDocument_self (md5 : String → String)
    (split : String → List String) (db : List DbEntry) (f : FileRec)
    (hfound : findFileMetadata db f.path ≠ none)
    (hsplit : split f.content ≠ []) :
    ∃ e, findFileMetadata (updateDocument true md5 split db f).2.1 f.path = some e
      ∧ e.fileHash = md5 f.content := by
  unfold findFileMetadata at hfound ⊢
  rw [updateDocument_characterize, List.find?_append]
  have hne : (db.filter (fun e => e.source == f.path)).isEmpty = false := by
    rw [List.isEmpty_eq_false]
    intro hnil
    apply hfound
    rw [List.find?_eq_none]
    intro x hx hbeq
    have := List.filter_eq_nil_iff.mp hnil x hx
    exact this hbeq
  rw [hne]
  have h1 : (db.filter (fun e => e.source != f.path)).find?
      (fun e => e.source == f.path) = none := by
    rw [List.find?_eq_none]
    intro x hx hbeq
    have hmem := List.mem_filter.mp hx
    have hxne : x.source ≠ f.path := by simpa using hmem.2
    exact hxne (by simpa using hbeq)
  rw [h1, Option.none_or]
  simp only [Bool.false_eq_true, if_false]
  cases hs : split f.content with
  | nil => exact absurd hs hsplit
  | cons c cs =>
      refine ⟨⟨updateChunkId md5 f.path 0, f.path, md5 f.content⟩, ?_, rfl⟩
      unfold chunkEntriesForUpdate
      rw [hs, tagIdx, List.map_cons, List.find?_cons_of_pos _ (by simp)]

lemma mem_updateDocument (md5 : String → String) (split : String → List String)
    (db : List DbEntry) (f : FileRec) (e : DbEntry)
    (he : e ∈ (updateDocument true md5 split db f).2.1) :
    e ∈ db ∨ e.source = f.path := by
  rw [updateDocument_characterize] at he
  rcases List.mem_append.mp he with h | h
  · exact Or.inl (List.mem_filter.mp h).1
  · right
    rcases h2 : (db.filter (fun x => x.source == f.path)).isEmpty with _ | _
    · rw [h2] at h
      simp only [Bool.false_eq_true, if_false] at h
      rcases List.mem_map.mp h with ⟨p, _, hp⟩
      rw [← hp]
    · rw [h2] at h
      simp at h

lemma findFileMetadata_applyModified_other (md5 : String → String)
    (split : String → List String) :
    ∀ (M : List FileRec) (db : List DbEntry) (q : String),
      (∀ m ∈ M, m.path ≠ q) →
      findFileMetadata (applyModified md5 split db M).1 q = findFileMetadata db q
  | [], db, q, _ => rfl
  | m :: M, db, q, h => by
      show findFileMetadata
        (applyModified md5 split (updateDocument true md5 split db m).2.1 M).1 q = _
      rw [findFileMetadata_applyModified_other md5 split M _ q
          (fun m' hm' => h m' (List.mem_cons_of_mem m hm')),
        findFileMetadata_updateDocument_other md5 split db m q
          (Ne.symm (h m (List.mem_cons_self _ _)))]

lemma mem_applyModified (md5 : String → String) (split : String → List String) :
    ∀ (M : List FileRec) (db : List DbEntry) (e : DbEntry),
      e ∈ (applyModified md5 split db M).1 →
      e ∈ db ∨ ∃ m ∈ M, e.source = m.path
  | [], db, e, he => Or.inl he
  | m :: M, db, e, he => by
      have hstep := mem_applyModified md5 split M _ e he
      rcases hstep with h | ⟨m', hm', hsrc⟩
      · rcases mem_updateDocument md5 split db m e h with h2 | h2
        · exact Or.inl h2
        · exact Or.inr ⟨m, List.mem_cons_self _ _, h2⟩
      · exact Or.inr ⟨m', List.mem_cons_of_mem m hm', hsrc⟩

lemma findFileMetadata_applyModified_self (md5 : String → String)
    (split : String → List String) :
    ∀ (M : List FileRec) (db : List DbEntry),
      (M.map (fun f => f.path)).Nodup →
      (∀ m ∈ M, findFileMetadata db m.path ≠ none) →
      (∀ m ∈ M, split m.content ≠ []) →
      ∀ m ∈ M, ∃ e, findFileMetadata (applyModified md5 split db M).1 m.path = some e
        ∧ e.fileHash = md5 m.content
  | [], db, _, _, _, m, hm => absurd hm (List.not_mem_nil m)
  | m0 :: M, db, hnodup, hfound, hsplit, m, hm => by
      have hnodup2 : (M.map (fun f => f.path)).Nodup := by
        rw [List.map_cons, List.nodup_cons] at hnodup
        exact hnodup.2
      have hhead : m0.path ∉ M.map (fun f => f.path) := by
        rw [List.map_cons, List.nodup_cons] at hnodup
        exact hnodup.1
      rcases List.mem_cons.mp hm with heq | hmem
      · subst heq
        have hself := findFileMetadata_updateDocument_self md5 split db m
          (hfound m (List.mem_cons_self _ _)) (hsplit m (List.mem_cons_self _ _))
        rcases hself with ⟨e, he, hhash⟩
        refine ⟨e, ?_, hhash⟩
        show findFileMetadata
          (applyModified md5 split (updateDocument true md5 split db m).2.1 M).1 m.path = some e
        rw [findFileMetadata_applyModified_other md5 split M _ m.path ?_, he]
        intro m' hm'
        intro hpath
        exact hhead (hpath ▸ List.mem_map.mpr ⟨m', hm', rfl⟩)
      · have hfound2 : ∀ m' ∈ M, findFileMetadata
            (updateDocument true md5 split db m0).2.1 m'.path ≠ none := by
          intro m' hm'
          rw [findFileMetadata_updateDocument_other md5 split db m0 m'.path ?_]
          · exact hfound m' (List.mem_cons_of_mem m0 hm')
          · intro hpath
            exact hhead (hpath ▸ List.mem_map.mpr ⟨m', hm', rfl⟩)
        exact findFileMetadata_applyModified_self md5 split M _ hnodup2 hfound2
          (fun m' hm' => hsplit m' (List.mem_cons_of_mem m0 hm')) m hmem

lemma applyNew_fst (md5 : String → String) (split : String → List String)
    (db : List DbEntry) (N : List FileRec) :
    (applyNew md5 split db N).1
      = db ++ (if N.isEmpty then []
               else (N.map (chunkEntriesForNewFile md5 split)).flatten) := by
  unfold applyNew
  split
  · simp
  · rfl

lemma findFileMetadata_applyNew_preserve (md5 : String → String)
    (split : String → List String) (db : List DbEntry) (N : List FileRec)
    (q : String) (e : DbEntry) (hq : findFileMetadata db q = some e) :
    findFileMetadata (applyNew md5 split db N).1 q = some e := by
  unfold findFileMetadata at hq ⊢
  rw [applyNew_fst, List.find?_append, hq]
  rfl

lemma find?_newEntries (md5 : String → String) (split : String → List String)
    (n : FileRec) :
    ∀ N : List FileRec, (N.map (fun f => f.path)).Nodup → n ∈ N →
      split n.content ≠ [] →
      ∃ e, ((N.map (chunkEntriesForNewFile md5 split)).flatten).find?
          (fun x => x.source == n.path) = some e ∧ e.fileHash = md5 n.content
  | [], _, hn, _ => absurd hn (List.not_mem_nil n)
  | n0 :: N, hnodup, hn, hsplit => by
      have hnodup2 : (N.map (fun f => f.path)).Nodup := by
        rw [List.map_cons, List.nodup_cons] at hnodup
        exact hnodup.2
      have hhead : n0.path ∉ N.map (fun f => f.path) := by
        rw [List.map_cons, List.nodup_cons] at hnodup
        exact hnodup.1
      rw [List.map_cons, List.flatten_cons, List.find?_append]
      rcases List.mem_cons.mp hn with heq | hmem
      · subst heq
        cases hs : split n.content with
        | nil => exact absurd hs hsplit
        | cons c cs =>
            refine ⟨⟨newFileChunkId md5 n.path c, n.path, md5 n.content⟩, ?_, rfl⟩
            unfold chunkEntriesForNewFile
            rw [hs, List.map_cons, List.find?_cons_of_pos _ (by simp)]
            rfl
      · have h0 : (chunkEntriesForNewFile md5 split n0).find?
            (fun x => x.source == n.path) = none := by
          rw [List.find?_eq_none]
          intro x hx hbeq
          rcases List.mem_map.mp hx with ⟨c, _, hc⟩
          have hsrc : x.source = n0.path := by rw [← hc]
          have : n.path = n0.path := by
            have := (beq_iff_eq).mp hbeq
            rw [hsrc] at this
            exact this.symm
          exact hhead (this ▸ List.mem_map.mpr ⟨n, hmem, rfl⟩)
        rw [h0, Option.none_or]
        exact find?_newEntries md5 split n N hnodup2 hmem hsplit

lemma mem_applyNew (md5 : String → String) (split : String → List String)
    (db : List DbEntry) (N : List FileRec) (e : DbEntry)
    (he : e ∈ (applyNew md5 split db N).1) :
    e ∈ db ∨ ∃ n ∈ N, e.source = n.path := by
  rw [applyNew_fst] at he
  rcases List.mem_append.mp he with h | h
  · exact Or.inl h
  · right
    rcases hN : N.isEmpty with _ | _
    · rw [hN] at h
      simp only [Bool.false_eq_true, if_false] at h
      rcases List.mem_flatten.mp h with ⟨l, hl, hel⟩
      rcases List.mem_map.mp hl with ⟨n, hn, hnl⟩
      refine ⟨n, hn, ?_⟩
      rw [← hnl] at hel
      rcases List.mem_map.mp hel with ⟨c, _, hc⟩
      rw [← hc]
    · rw [hN] at h
      simp at h

lemma contains_eq_true_of_mem {l : List String} {a : String} (h : a ∈ l) :
    l.contains a = true :=
  List.elem_iff.mpr h

lemma not_eq_true_self {b : Bool} (h : (!b) = true) : b = false := by
  cases b
  · rfl
  · exact Bool.noConfusion h

lemma dbSources_contains_iff (db : List DbEntry) (p : String) :
    (dbSources db).contains p = true ↔ ∃ e ∈ db, e.source = p := by
  have h1 : (dbSources db).contains p = true ↔ p ∈ dbSources db := List.elem_iff
  rw [h1]
  unfold dbSources
  rw [List.mem_dedup, List.mem_map]

lemma isFileModified_false_iff (md5 : String → String) (db : List DbEntry)
    (f : FileRec) :
    isFileModified md5 db f = false ↔
      ∃ e, findFileMetadata db f.path = some e ∧ e.fileHash = md5 f.content := by
  unfold isFileModified
  cases h : findFileMetadata db f.path with
  | none => simp
  | some e =>
      constructor
      · intro hb
        exact ⟨e, rfl, (bne_eq_false_iff_eq.mp hb).symm⟩
      · rintro ⟨e', he', hh⟩
        injection he' with he2
        rw [← he2] at hh
        exact bne_eq_false_iff_eq.mpr hh.symm

lemma nodup_filter_paths (fs : List FileRec)
    (hnodup : (fs.map (fun f => f.path)).Nodup) (p : FileRec → Bool) :
    ((fs.filter p).map (fun f => f.path)).Nodup :=
  List.Nodup.sublist (List.Sublist.map _ (List.filter_sublist fs)) hnodup

/-- The first pass of `sync` leaves the index in sync with the filesystem
snapshot: every current file has a stored record with the current content
hash, and every stored chunk belongs to a current file. -/
lemma syncPass_synced (md5 : String → String) (split : String → List String)
    (db : List DbEntry) (fs : List FileRec)
    (hnodup : (fs.map (fun f => f.path)).Nodup)
    (hsplit : ∀ f ∈ fs, split f.content ≠ []) :
    SyncedDb md5 (syncPass md5 split db fs).2.1 fs := by
  have pathInj := List.inj_on_of_nodup_map hnodup
  have hD_def : (classifyFiles md5 db fs).deletedFiles
      = (dbSources db).filter
          (fun p => !((fs.map (fun f => f.path)).contains p)) := rfl
  have hM_def : (classifyFiles md5 db fs).modifiedFiles
      = fs.filter (fun f => (dbSources db).contains f.path
          && (ENABLE_FILE_MONITORING && isFileModified md5 db f)) := rfl
  have hN_def : (classifyFiles md5 db fs).newFiles
      = fs.filter (fun f => !((dbSources db).contains f.path)) := rfl
  have hres : (syncPass md5 split db fs).2.1
      = (applyNew md5 split
          (applyModified md5 split
            (applyDeleted db (classifyFiles md5 db fs).deletedFiles).1
            (classifyFiles md5 db fs).modifiedFiles).1
          (classifyFiles md5 db fs).newFiles).1 := rfl
  have hF1 : ∀ f ∈ fs, f.path ∉ (classifyFiles md5 db fs).deletedFiles := by
    intro f hf hmem
    rw [hD_def] at hmem
    have h2 := (List.mem_filter.mp hmem).2
    have h3 := not_eq_true_self h2
    have h4 : f.path ∈ fs.map (fun f => f.path) := List.mem_map.mpr ⟨f, hf, rfl⟩
    exact Bool.noConfusion ((contains_eq_true_of_mem h4).symm.trans h3)
  have hMsub : ∀ m ∈ (classifyFiles md5 db fs).modifiedFiles,
      m ∈ fs ∧ (dbSources db).contains m.path = true
        ∧ isFileModified md5 db m = true := by
    intro m hm
    rw [hM_def] at hm
    have h := List.mem_filter.mp hm
    refine ⟨h.1, ?_, ?_⟩
    · exact (Bool.and_eq_true _ _ |>.mp h.2).1
    · exact ((Bool.and_eq_true _ _ |>.mp (Bool.and_eq_true _ _ |>.mp h.2).2).2)
  have hNsub : ∀ n ∈ (classifyFiles md5 db fs).newFiles,
      n ∈ fs ∧ (dbSources db).contains n.path = false := by
    intro n hn
    rw [hN_def] at hn
    have h := List.mem_filter.mp hn
    exact ⟨h.1, not_eq_true_self h.2⟩
  have hMnodup : ((classifyFiles md5 db fs).modifiedFiles.map (fun f => f.path)).Nodup := by
    rw [hM_def]
    exact nodup_filter_paths fs hnodup _
  have hNnodup : ((classifyFiles md5 db fs).newFiles.map (fun f => f.path)).Nodup := by
    rw [hN_def]
    exact nodup_filter_paths fs hnodup _
  have hdb1find : ∀ p, p ∉ (classifyFiles md5 db fs).deletedFiles →
      findFileMetadata (applyDeleted db (classifyFiles md5 db fs).deletedFiles).1 p
        = findFileMetadata db p :=
    fun p hp => findFileMetadata_applyDeleted db _ p hp
  have hF3 : ∀ m ∈ (classifyFiles md5 db fs).modifiedFiles,
      findFileMetadata (applyDeleted db (classifyFiles md5 db fs).deletedFiles).1 m.path
        ≠ none := by
    intro m hm
    rw [hdb1find m.path (hF1 m (hMsub m hm).1)]
    rcases (dbSources_contains_iff db m.path).mp (hMsub m hm).2.1 with ⟨e, he, hsrc⟩
    intro hnone
    rw [findFileMetadata, List.find?_eq_none] at hnone
    exact hnone e he (by simp [hsrc])
  rw [SyncedDb, hres]
  constructor
  · intro f hf
    by_cases hP : (dbSources db).contains f.path = true
    · by_cases hmod : isFileModified md5 db f = true
      · have hmem : f ∈ (classifyFiles md5 db fs).modifiedFiles := by
          rw [hM_def]
          exact List.mem_filter.mpr ⟨hf, by rw [hP, hmod]; rfl⟩
        rcases findFileMetadata_applyModified_self md5 split
            (classifyFiles md5 db fs).modifiedFiles _ hMnodup hF3
            (fun m hm => hsplit m (hMsub m hm).1) f hmem with ⟨e, he2, hh⟩
        exact ⟨e, findFileMetadata_applyNew_preserve md5 split _ _ f.path e he2, hh⟩
      · have hmod2 : isFileModified md5 db f = false := by
          cases h : isFileModified md5 db f
          · rfl
          · exact absurd h hmod
        rcases (isFileModified_false_iff md5 db f).mp hmod2 with ⟨e, he, hh⟩
        have h1 : findFileMetadata
            (applyDeleted db (classifyFiles md5 db fs).deletedFiles).1 f.path = some e := by
          rw [hdb1find _ (hF1 f hf)]
          exact he
        have hModOther : ∀ m ∈ (classifyFiles md5 db fs).modifiedFiles,
            m.path ≠ f.path := by
          intro m hm hpath
          have hmf : m = f := pathInj (hMsub m hm).1 hf hpath
          have hmodm := (hMsub m hm).2.2
          rw [hmf] at hmodm
          exact Bool.noConfusion (hmodm.symm.trans hmod2)
        have h2 : findFileMetadata
            (applyModified md5 split
              (applyDeleted db (classifyFiles md5 db fs).deletedFiles).1
              (classifyFiles md5 db fs).modifiedFiles).1 f.path = some e := by
          rw [findFileMetadata_applyModified_other md5 split _ _ f.path hModOther]
          exact h1
        exact ⟨e, findFileMetadata_applyNew_preserve md5 split _ _ f.path e h2, hh⟩
    · have hPf : (dbSources db).contains f.path = false := by
        cases h : (dbSources db).contains f.path
        · rfl
        · exact absurd h hP
      have hmemN : f ∈ (classifyFiles md5 db fs).newFiles := by
        rw [hN_def]
        exact List.mem_filter.mpr ⟨hf, by rw [hPf]; rfl⟩
      have hnone : findFileMetadata
          (applyModified md5 split
            (applyDeleted db (classifyFiles md5 db fs).deletedFiles).1
            (classifyFiles md5 db fs).modifiedFiles).1 f.path = none := by
        cases hfind : findFileMetadata
            (applyModified md5 split
              (applyDeleted db (classifyFiles md5 db fs).deletedFiles).1
              (classifyFiles md5 db fs).modifiedFiles).1 f.path with
        | none => rfl
        | some e =>
            exfalso
            have hmem2 := List.mem_of_find?_eq_some hfind
            have hsrc : e.source = f.path := by
              simpa using List.find?_some hfind
            rcases mem_applyModified md5 split _ _ e hmem2 with h | ⟨m, hm, hsm⟩
            · have hdb2 := (mem_applyDeleted db _ e h).1
              exact hP ((dbSources_contains_iff db f.path).mpr ⟨e, hdb2, hsrc⟩)
            · have hpaths : m.path = f.path := by rw [← hsm, hsrc]
              have hmf : m = f := pathInj (hMsub m hm).1 hf hpaths
              have hcont := (hMsub m hm).2.1
              rw [hmf] at hcont
              exact hP hcont
      have hNne : (classifyFiles md5 db fs).newFiles.isEmpty = false :=
        List.isEmpty_eq_false.mpr (List.ne_nil_of_mem hmemN)
      rcases find?_newEntries md5 split f (classifyFiles md5 db fs).newFiles
          hNnodup hmemN (hsplit f hf) with ⟨e, hefind, hh⟩
      refine ⟨e, ?_, hh⟩
      rw [findFileMetadata, applyNew_fst, List.find?_append, hNne]
      rw [findFileMetadata] at hnone
      rw [hnone, Option.none_or]
      simpa using hefind
  · intro e he
    rcases mem_applyNew md5 split _ _ e he with h | ⟨n, hn, hs⟩
    · rcases mem_applyModified md5 split _ _ e h with h2 | ⟨m, hm, hs⟩
      · obtain ⟨hdb2, hnotD⟩ := mem_applyDeleted db _ e h2
        have hproc : e.source ∈ dbSources db := by
          unfold dbSources
          rw [List.mem_dedup]
          exact List.mem_map.mpr ⟨e, hdb2, rfl⟩
        by_cases hc : (fs.map (fun f => f.path)).contains e.source = true
        · have hmemp : e.source ∈ fs.map (fun f => f.path) := List.elem_iff.mp hc
          rcases List.mem_map.mp hmemp with ⟨f, hf, hp⟩
          exact ⟨f, hf, hp.symm⟩
        · exfalso
          apply hnotD
          rw [hD_def]
          refine List.mem_filter.mpr ⟨hproc, ?_⟩
          cases hcc : (fs.map (fun f => f.path)).contains e.source
          · rfl
          · exact absurd hcc hc
      · exact ⟨m, (hMsub m hm).1, hs⟩
    · exact ⟨n, (hNsub n hn).1, hs⟩

/-- On an index in sync with the filesystem, classification finds nothing
new, modified or deleted. -/
lemma classify_synced_empty (md5 : String → String) (db : List DbEntry)
    (fs : List FileRec) (h : SyncedDb md5 db fs) :
    (classifyFiles md5 db fs).newFiles = [] ∧
    (classifyFiles md5 db fs).modifiedFiles = [] ∧
    (classifyFiles md5 db fs).deletedFiles = [] := by
  obtain ⟨h1, h2⟩ := h
  refine ⟨?_, ?_, ?_⟩
  · show fs.filter _ = []
    rw [List.filter_eq_nil_iff]
    intro f hf
    rcases h1 f hf with ⟨e, he, _⟩
    have hc : (dbSources db).contains f.path = true :=
      (dbSources_contains_iff db f.path).mpr
        ⟨e, List.mem_of_find?_eq_some he, by simpa using List.find?_some he⟩
    rw [hc]
    decide
  · show fs.filter _ = []
    rw [List.filter_eq_nil_iff]
    intro f hf
    rcases h1 f hf with ⟨e, he, hh⟩
    have hmod : isFileModified md5 db f = false :=
      (isFileModified_false_iff md5 db f).mpr ⟨e, he, hh⟩
    rw [hmod]
    simp
  · show (dbSources db).filter _ = []
    rw [List.filter_eq_nil_iff]
    intro p hp
    have hp2 : p ∈ (db.map (fun e => e.source)) := by
      have := hp
      unfold dbSources at this
      exact List.mem_dedup.mp this
    rcases List.mem_map.mp hp2 with ⟨e, he, hs⟩
    rcases h2 e he with ⟨f, hf, hsf⟩
    have hmemp : p ∈ fs.map (fun f => f.path) :=
      List.mem_map.mpr ⟨f, hf, by rw [← hsf, hs]⟩
    rw [contains_eq_true_of_mem hmemp]
    decide

/-- C5: calling sync twice on the same filesystem snapshot yields, on the
second pass, an empty plan (no new, modified or deleted files), performs
zero index mutations, and leaves the index unchanged — provided the file
paths are distinct and every file chunks to at least one chunk. -/
theorem sync_idempotent (md5 : String → String) (split : String → List String)
    (db : List DbEntry) (fs : List FileRec)
    (hnodup : (fs.map (fun f => f.path)).Nodup)
    (hsplit : ∀ f ∈ fs, split f.content ≠ []) :
    (syncPass md5 split (syncPass md5 split db fs).2.1 fs).1.newFiles = [] ∧
    (syncPass md5 split (syncPass md5 split db fs).2.1 fs).1.modifiedFiles = [] ∧
    (syncPass md5 split (syncPass md5 split db fs).2.1 fs).1.deletedFiles = [] ∧
    (syncPass md5 split (syncPass md5 split db fs).2.1 fs).2.1
      = (syncPass md5 split db fs).2.1 ∧
    (syncPass md5 split (syncPass md5 split db fs).2.1 fs).2.2 = 0 := by
  have hsynced := syncPass_synced md5 split db fs hnodup hsplit
  obtain ⟨hnew, hmod, hdel⟩ :=
    classify_synced_empty md5 (syncPass md5 split db fs).2.1 fs hsynced
  refine ⟨hnew, hmod, hdel, ?_, ?_⟩
  · have h21 : (syncPass md5 split (syncPass md5 split db fs).2.1 fs).2.1
        = (applyNew md5 split
            (applyModified md5 split
              (applyDeleted (syncPass md5 split db fs).2.1
                (classifyFiles md5 (syncPass md5 split db fs).2.1 fs).deletedFiles).1
              (classifyFiles md5 (syncPass md5 split db fs).2.1 fs).modifiedFiles).1
            (classifyFiles md5 (syncPass md5 split db fs).2.1 fs).newFiles).1 := rfl
    rw [h21, hdel, hmod, hnew]
    rfl
  · have h22 : (syncPass md5 split (syncPass md5 split db fs).2.1 fs).2.2
        = (applyDeleted (syncPass md5 split db fs).2.1
            (classifyFiles md5 (syncPass md5 split db fs).2.1 fs).deletedFiles).2
          + (applyModified md5 split
              (applyDeleted (syncPass md5 split db fs).2.1
                (classifyFiles md5 (syncPass md5 split db fs).2.1 fs).deletedFiles).1
              (classifyFiles md5 (syncPass md5 split db fs).2.1 fs).modifiedFiles).2
          + (applyNew md5 split
              (applyModified md5 split
                (applyDeleted (syncPass md5 split db fs).2.1
                  (classifyFiles md5 (syncPass md5 split db fs).2.1 fs).deletedFiles).1
                (classifyFiles md5 (syncPass md5 split db fs).2.1 fs).modifiedFiles).1
              (classifyFiles md5 (syncPass md5 split db fs).2.1 fs).newFiles).2 := rfl
    rw [h22, hdel, hmod, hnew]
    rfl

/-- Witness for C5: a fresh index and one file; after the first sync the
second pass finds nothing to do. -/
theorem sync_idempotent_witness :
    (syncPass (fun s => s) (fun c => [c])
        (syncPass (fun s => s) (fun c => [c]) [] [⟨"a.txt", "Alpha"⟩]).2.1
        [⟨"a.txt", "Alpha"⟩]).1.newFiles = [] ∧
    (syncPass (fun s => s) (fun c => [c])
        (syncPass (fun s => s) (fun c => [c]) [] [⟨"a.txt", "Alpha"⟩]).2.1
        [⟨"a.txt", "Alpha"⟩]).1.modifiedFiles = [] ∧
    (syncPass (fun s => s) (fun c => [c])
        (syncPass (fun s => s) (fun c => [c]) [] [⟨"a.txt", "Alpha"⟩]).2.1
        [⟨"a.txt", "Alpha"⟩]).1.deletedFiles = [] ∧
    (syncPass (fun s => s) (fun c => [c])
        (syncPass (fun s => s) (fun c => [c]) [] [⟨"a.txt", "Alpha"⟩]).2.1
        [⟨"a.txt", "Alpha"⟩]).2.1
      = (syncPass (fun s => s) (fun c => [c]) [] [⟨"a.txt", "Alpha"⟩]).2.1 ∧
    (syncPass (fun s => s) (fun c => [c])
        (syncPass (fun s => s) (fun c => [c]) [] [⟨"a.txt", "Alpha"⟩]).2.1
        [⟨"a.txt", "Alpha"⟩]).2.2 = 0 :=
  sync_idempotent (fun s => s) (fun c => [c]) [] [⟨"a.txt", "Alpha"⟩]
    (by decide) (by decide)

end RagDemo
